import Mathlib

/-!
# mergegomods: the `merge` command (`cmd/merge.go`)

`MergeTask.Run` builds an empty target manifest, copies the directives of every
input manifest into it through the calls of `golang.org/x/mod/modfile`, applies
the go-version override, lets the library clean up and sort the target and
prints it.

The development has three layers.

* The data model: the fields of `modfile.File` that `Run` reads.
* `Run` and its loops, translated from `cmd/merge.go` line by line.  Every call
  into `modfile` is a call into a record `Modfile` of operations, so that facts
  that depend on the control flow of `Run` are proved for every library, or for
  every library that meets a stated contract.
* `libModfile`: the operations of the library.  The library is not part of the
  repository.  Where the specification describes an operation as the library
  performs it, the definition follows the specification's words; `AddExclude`,
  `AddReplace` and `Cleanup` follow the library instead, which reports no
  conflict and collapses nothing.

The library compares version strings when it sorts; the version type `V` and its
linear order are parameters of the whole development.
-/

namespace MergeGoMods

/-! ## Data model -/

/-- A `module.Version`: a module path with a version. -/
structure ModVersion (V : Type) where
  Path : String
  Version : V
  deriving DecidableEq

/-- A `modfile.Require`: a requirement with its `// indirect` flag. -/
structure Require (V : Type) where
  Mod : ModVersion V
  Indirect : Bool
  deriving DecidableEq

/-- A `modfile.Exclude`: a forbidden (path, version) pair. -/
structure Exclude (V : Type) where
  Mod : ModVersion V
  deriving DecidableEq

/-- The tokens of a `replace` line: what is printed for a replacement.  In Go an
empty version string on the old side is the wildcard and an empty one on the new
side a local path; both are `none` here. -/
structure ReplaceLine (V : Type) where
  Old : ModVersion (Option V)
  New : ModVersion (Option V)
  deriving DecidableEq

/-- A `modfile.Replace`: the fields `Old` and `New` that `Run` reads, and the line
`Syntax` of the manifest's text.  In a parsed manifest the line holds the same old
and new side as the fields. -/
structure Replace (V : Type) where
  Old : ModVersion (Option V)
  New : ModVersion (Option V)
  Syntax : ReplaceLine V
  deriving DecidableEq

/-- A `modfile.VersionInterval`. -/
structure VersionInterval (V : Type) where
  Low : V
  High : V
  deriving DecidableEq

/-- A `modfile.Retract`: an interval with its rationale. -/
structure Retract (V : Type) where
  VersionInterval : VersionInterval V
  Rationale : String
  deriving DecidableEq

/-- A `modfile.Go`: the go statement of a manifest. -/
structure Go where
  Version : String
  deriving DecidableEq

/-- A `modfile.File`, without its syntax tree.  `Module` and `Go` are pointers in
Go: `none` is the nil pointer of a manifest without that statement. -/
structure File (V : Type) where
  Module : Option String
  Go : Option Go
  Require : List (Require V)
  Exclude : List (Exclude V)
  Replace : List (Replace V)
  Retract : List (Retract V)
  deriving DecidableEq

/-- A Go `error` value.  `load` is what `loadGoModFile` returns when a file cannot
be read or parsed; the two conflicts are the ones the specification names (the
library reports neither);
`other` is any further error of a library call. -/
inductive Error (V : Type) where
  | load (name : String)
  | duplicateExclude (path : String) (version : V)
  | duplicateReplace (path : String) (version : Option V)
  | other (msg : String)
  deriving DecidableEq

/-- The operations of `golang.org/x/mod/modfile` that `Run` calls.  In Go they
update the `*File` in place and return an `error`; here each returns the updated
file or the error.  `Parse` is the call `modfile.Parse("go.mod", []byte{}, nil)`
of line 71. -/
structure Modfile (V : Type) where
  Parse : Except (Error V) (File V)
  AddModuleStmt : File V → String → Except (Error V) (File V)
  AddNewRequire : File V → String → V → Bool → File V
  AddExclude : File V → String → V → Except (Error V) (File V)
  AddReplace : File V → String → Option V → String → Option V → Except (Error V) (File V)
  AddRetract : File V → VersionInterval V → String → Except (Error V) (File V)
  AddGoStmt : File V → String → Except (Error V) (File V)
  Cleanup : File V → File V
  SortBlocks : File V → File V

/-! ## `cmd/merge.go` -/

/-- The flags of `MergeTask`.  Its third field, the set `InputGoModFiles`, is the
argument `inputs` of `Run`. -/
structure MergeTask where
  OutputPackageName : String
  OutputGoVersion : String
  deriving DecidableEq

/-- Why the body of `Run` stops early: it returns an error, or the Go runtime
faults (a nil pointer dereference). -/
inductive Stop (V : Type) where
  | error (e : Error V)
  | fault
  deriving DecidableEq

/-- How a call of `Run` ends. -/
inductive Ret (V : Type) where
  | nil
  | err (e : Error V)
  | fault
  deriving DecidableEq

/-- What a call of `Run` does: the manifests whose text it printed on standard
output, in order, and how it ended. -/
structure Outcome (V : Type) where
  stdout : List (File V)
  ret : Ret V
  deriving DecidableEq

variable {V : Type}

/-- Lines 89-91: `modFile.AddNewRequire(r.Mod.Path, r.Mod.Version, false)` for
every requirement of the input. -/
def copyRequire (L : Modfile V) : File V → List (Require V) → File V
  | modFile, [] => modFile
  | modFile, r :: rs =>
    copyRequire L (L.AddNewRequire modFile r.Mod.Path r.Mod.Version false) rs

/-- Lines 92-96: `modFile.AddExclude(x.Mod.Path, x.Mod.Version)` for every
exclusion of the input, returning the first error. -/
def copyExclude (L : Modfile V) : File V → List (Exclude V) → Except (Error V) (File V)
  | modFile, [] => .ok modFile
  | modFile, x :: xs =>
    match L.AddExclude modFile x.Mod.Path x.Mod.Version with
    | .error err => .error err
    | .ok modFile => copyExclude L modFile xs

/-- Lines 97-101: `modFile.AddReplace(r.Old.Path, r.Old.Version, r.New.Path,
r.New.Version)` for every replacement of the input, returning the first error. -/
def copyReplace (L : Modfile V) : File V → List (Replace V) → Except (Error V) (File V)
  | modFile, [] => .ok modFile
  | modFile, r :: rs =>
    match L.AddReplace modFile r.Old.Path r.Old.Version r.New.Path r.New.Version with
    | .error err => .error err
    | .ok modFile => copyReplace L modFile rs

/-- Lines 102-106: `modFile.AddRetract(r.VersionInterval, r.Rationale)` for every
retraction of the input, returning the first error. -/
def copyRetract (L : Modfile V) : File V → List (Retract V) → Except (Error V) (File V)
  | modFile, [] => .ok modFile
  | modFile, r :: rs =>
    match L.AddRetract modFile r.VersionInterval r.Rationale with
    | .error err => .error err
    | .ok modFile => copyRetract L modFile rs

/-- Lines 108-110: `modFile.AddGoStmt(inputModFile.Go.Version)`.  The field `Go` is
read through the pointer without a nil check, so an input without a go statement
faults. -/
def copyGo (L : Modfile V) (modFile inputModFile : File V) : Except (Stop V) (File V) :=
  match inputModFile.Go with
  | none => .error .fault
  | some g =>
    match L.AddGoStmt modFile g.Version with
    | .error err => .error (.error err)
    | .ok modFile => .ok modFile

/-- Lines 89-110: the body of the loop for one loaded input. -/
def mergeOne (L : Modfile V) (modFile inputModFile : File V) : Except (Stop V) (File V) :=
  match copyExclude L (copyRequire L modFile inputModFile.Require) inputModFile.Exclude with
  | .error err => .error (.error err)
  | .ok modFile =>
    match copyReplace L modFile inputModFile.Replace with
    | .error err => .error (.error err)
    | .ok modFile =>
      match copyRetract L modFile inputModFile.Retract with
      | .error err => .error (.error err)
      | .ok modFile => copyGo L modFile inputModFile

/-- Lines 83-111: the loop over `t.InputGoModFiles`.  `inputs` lists what
`loadGoModFile` returns for each key of the map, in the order in which the `range`
statement visits the keys. -/
def mergeAll (L : Modfile V) : File V → List (Except (Error V) (File V)) → Except (Stop V) (File V)
  | modFile, [] => .ok modFile
  | _, .error err :: _ => .error (.error err)
  | modFile, .ok inputModFile :: rest =>
    match mergeOne L modFile inputModFile with
    | .error s => .error s
    | .ok modFile => mergeAll L modFile rest

/-- Lines 71-80: the empty target, with the module statement of the flag. -/
def initTarget (L : Modfile V) (t : MergeTask) : Except (Error V) (File V) :=
  match L.Parse with
  | .error err => .error err
  | .ok modFile =>
    if t.OutputPackageName ≠ "" then L.AddModuleStmt modFile t.OutputPackageName
    else .ok modFile

/-- Lines 113-117: the go statement of the flag. -/
def overrideGo (L : Modfile V) (t : MergeTask) (modFile : File V) : Except (Error V) (File V) :=
  if t.OutputGoVersion ≠ "" then L.AddGoStmt modFile t.OutputGoVersion
  else .ok modFile

/-- Lines 71-120: `Run` up to the statement that prints. -/
def runBody (L : Modfile V) (t : MergeTask) (inputs : List (Except (Error V) (File V))) :
    Except (Stop V) (File V) :=
  match initTarget L t with
  | .error err => .error (.error err)
  | .ok modFile =>
    match mergeAll L modFile inputs with
    | .error s => .error s
    | .ok modFile =>
      match overrideGo L t modFile with
      | .error err => .error (.error err)
      | .ok modFile => .ok (L.SortBlocks (L.Cleanup modFile))

/-- `MergeTask.Run` (lines 68-125).  The only statement that writes to standard
output is the `fmt.Println` of line 123, reached when nothing before it returned
or faulted; `Run` then returns nil. -/
def Run (L : Modfile V) (t : MergeTask) (inputs : List (Except (Error V) (File V))) :
    Outcome V :=
  match runBody L t inputs with
  | .ok modFile => ⟨[modFile], .nil⟩
  | .error (.error err) => ⟨[], .err err⟩
  | .error .fault => ⟨[], .fault⟩

/-! ## The library

`golang.org/x/mod/modfile` is an external library.  `Parse`, `AddModuleStmt`,
`AddNewRequire`, `AddRetract`, `AddGoStmt` and `SortBlocks` are as the
specification describes them (sections 3 and 4.1).  `AddExclude`, `AddReplace`
and `Cleanup` are as the library performs them: the specification has a conflict
for a repeated exclusion or replacement and a collapsing of requirements, the
library has neither.  The lists of a `File` stand for the directive blocks of its
text. -/

/-- Modelled from the spec: the target of `modfile.Parse` on the empty text, which
is missing from the repository ("Creates an empty Target Manifest"). -/
def Lib.Parse : Except (Error V) (File V) :=
  .ok ⟨none, none, [], [], [], []⟩

/-- Modelled from the spec: `File.AddModuleStmt`, missing from the repository
("sets it as the manifest identity"; "later writes overwrite earlier ones"). -/
def Lib.AddModuleStmt (f : File V) (path : String) : Except (Error V) (File V) :=
  .ok { f with Module := some path }

/-- Modelled from the spec: `File.AddNewRequire`, missing from the repository
("appended to `target`", "no per-call conflict check"). -/
def Lib.AddNewRequire (f : File V) (path : String) (vers : V) (indirect : Bool) : File V :=
  { f with Require := f.Require ++ [⟨⟨path, vers⟩, indirect⟩] }

/-- The exclusions after `File.AddExclude`: a pair that is already present is left
alone, any other is appended. -/
def Lib.addExclude [DecidableEq V] (xs : List (Exclude V)) (x : Exclude V) : List (Exclude V) :=
  if x ∈ xs then xs else xs ++ [x]

/-- The library's `File.AddExclude`, missing from the repository.  It returns no
error for a pair that is already present and leaves the file as it is; the
specification has a conflict there. -/
def Lib.AddExclude [DecidableEq V] (f : File V) (path : String) (vers : V) :
    Except (Error V) (File V) :=
  .ok { f with Exclude := Lib.addExclude f.Exclude ⟨⟨path, vers⟩⟩ }

/-- The test of the loop of `File.AddReplace`: the entry has the old path, and the
old version is the wildcard or the entry's old version,
`r.Old.Path == oldPath && (oldVers == "" || r.Old.Version == oldVers)`. -/
def Lib.matchesOld [DecidableEq V] (oldPath : String) (oldVers : Option V) (r : Replace V) :
    Bool :=
  decide (r.Old.Path = oldPath) && (decide (oldVers = none) || decide (r.Old.Version = oldVers))

/-- The loop of `File.AddReplace` over a list that holds a matching entry: the first
matching entry gets the new side and the new line (its field `Old` stays), every
later matching entry is removed. -/
def Lib.updateFirst [DecidableEq V] (oldPath : String) (oldVers : Option V)
    (new : ModVersion (Option V)) : List (Replace V) → List (Replace V)
  | [] => []
  | r :: rs =>
    if Lib.matchesOld oldPath oldVers r then
      { r with New := new, Syntax := ⟨⟨oldPath, oldVers⟩, new⟩ }
        :: rs.filter (fun x => !Lib.matchesOld oldPath oldVers x)
    else r :: Lib.updateFirst oldPath oldVers new rs

/-- The replacements after `File.AddReplace`: when an entry matches, the first
match is overwritten and the other matches are removed; when none does, the
replacement is appended. -/
def Lib.addReplace [DecidableEq V] (rs : List (Replace V)) (oldPath : String)
    (oldVers : Option V) (new : ModVersion (Option V)) : List (Replace V) :=
  if rs.any (Lib.matchesOld oldPath oldVers) then Lib.updateFirst oldPath oldVers new rs
  else rs ++ [⟨⟨oldPath, oldVers⟩, new, ⟨⟨oldPath, oldVers⟩, new⟩⟩]

/-- The library's `File.AddReplace`, missing from the repository.  It never returns
an error: a replacement of a source that is already replaced overwrites the
earlier one, and a wildcard source takes the place of the versioned entries of its
path; the specification has a conflict there.  The entries the library clears are
removed at once here. -/
def Lib.AddReplace [DecidableEq V] (f : File V) (oldPath : String) (oldVers : Option V)
    (newPath : String) (newVers : Option V) : Except (Error V) (File V) :=
  .ok { f with Replace := Lib.addReplace f.Replace oldPath oldVers ⟨newPath, newVers⟩ }

/-- Modelled from the spec: `File.AddRetract`, missing from the repository
("every retraction interval + rationale from `source` is appended to `target`
unconditionally"). -/
def Lib.AddRetract (f : File V) (vi : VersionInterval V) (rationale : String) :
    Except (Error V) (File V) :=
  .ok { f with Retract := f.Retract ++ [⟨vi, rationale⟩] }

/-- Modelled from the spec: `File.AddGoStmt`, missing from the repository
("overwrites the running value on `target`"). -/
def Lib.AddGoStmt (f : File V) (version : String) : Except (Error V) (File V) :=
  .ok { f with Go := some ⟨version⟩ }

/-- The library's `File.Cleanup`, missing from the repository.  It drops the
entries that earlier calls cleared and keeps every other directive, repeated
requirements included; the specification has it collapse the requirements of a
path.  Of the calls of `Run` only `AddReplace` clears entries, and `Lib.AddReplace`
removes them at once, so nothing is left to drop. -/
def Lib.Cleanup (f : File V) : File V :=
  f

/-- Modelled from the spec: the sort key of a requirement in `File.SortBlocks`,
missing from the repository ("lexicographic by path/version"): path, then
version, then flag. -/
def Require.key (r : Require V) : List Char ×ₗ V ×ₗ Bool :=
  toLex (r.Mod.Path.data, toLex (r.Mod.Version, r.Indirect))

/-- Modelled from the spec: the sort key of an exclusion in `File.SortBlocks`,
missing from the repository ("lexicographic by path/version"): path, then
version. -/
def Exclude.key (x : Exclude V) : List Char ×ₗ V :=
  toLex (x.Mod.Path.data, x.Mod.Version)

/-- Modelled from the spec: the sort key of the tokens of a `replace` line
("lexicographic by path/version"): old path and version, then new path and
version; the wildcard comes before every version. -/
def ReplaceLine.key (l : ReplaceLine V) :
    List Char ×ₗ WithBot V ×ₗ List Char ×ₗ WithBot V :=
  toLex (l.Old.Path.data, toLex ((l.Old.Version : WithBot V),
    toLex (l.New.Path.data, (l.New.Version : WithBot V))))

/-- Modelled from the spec: the sort key of a replacement in `File.SortBlocks`,
missing from the repository: the key of its line; entries with the same line are
printed alike, and the fields order them among themselves. -/
def Replace.key (r : Replace V) :
    (List Char ×ₗ WithBot V ×ₗ List Char ×ₗ WithBot V) ×ₗ
      (List Char ×ₗ WithBot V ×ₗ List Char ×ₗ WithBot V) :=
  toLex (r.Syntax.key, (⟨r.Old, r.New⟩ : ReplaceLine V).key)

/-- Modelled from the spec: the sort key of a retraction in `File.SortBlocks`,
missing from the repository ("all directive blocks"): the interval, then the
rationale. -/
def Retract.key (r : Retract V) : V ×ₗ V ×ₗ List Char :=
  toLex (r.VersionInterval.Low, toLex (r.VersionInterval.High, r.Rationale.data))

/-- Modelled from the spec: the canonical order of requirements, that of their
keys. -/
instance Require.instLinearOrder [LinearOrder V] : LinearOrder (Require V) :=
  LinearOrder.lift' Require.key (by
    rintro ⟨⟨p, v⟩, i⟩ ⟨⟨p2, v2⟩, i2⟩ h
    simp only [Require.key, EmbeddingLike.apply_eq_iff_eq, Prod.mk.injEq] at h
    obtain ⟨h1, rfl, rfl⟩ := h
    obtain rfl := String.ext h1
    rfl)

/-- Modelled from the spec: the canonical order of exclusions, that of their
keys. -/
instance Exclude.instLinearOrder [LinearOrder V] : LinearOrder (Exclude V) :=
  LinearOrder.lift' Exclude.key (by
    rintro ⟨⟨p, v⟩⟩ ⟨⟨p2, v2⟩⟩ h
    simp only [Exclude.key, EmbeddingLike.apply_eq_iff_eq, Prod.mk.injEq] at h
    obtain ⟨h1, rfl⟩ := h
    obtain rfl := String.ext h1
    rfl)

/-- Modelled from the spec: the canonical order of replacements, that of their
keys. -/
instance Replace.instLinearOrder [LinearOrder V] : LinearOrder (Replace V) :=
  LinearOrder.lift' Replace.key (by
    rintro ⟨⟨p, v⟩, ⟨q, w⟩, ⟨⟨a, b⟩, ⟨c, d⟩⟩⟩ ⟨⟨p2, v2⟩, ⟨q2, w2⟩, ⟨⟨a2, b2⟩, ⟨c2, d2⟩⟩⟩ h
    simp only [Replace.key, ReplaceLine.key, EmbeddingLike.apply_eq_iff_eq, Prod.mk.injEq] at h
    obtain ⟨⟨h1, rfl, h2, rfl⟩, h3, rfl, h4, rfl⟩ := h
    obtain rfl := String.ext h1
    obtain rfl := String.ext h2
    obtain rfl := String.ext h3
    obtain rfl := String.ext h4
    rfl)

/-- Modelled from the spec: the canonical order of retractions, that of their
keys. -/
instance Retract.instLinearOrder [LinearOrder V] : LinearOrder (Retract V) :=
  LinearOrder.lift' Retract.key (by
    rintro ⟨⟨a, b⟩, s⟩ ⟨⟨a2, b2⟩, s2⟩ h
    simp only [Retract.key, EmbeddingLike.apply_eq_iff_eq, Prod.mk.injEq] at h
    obtain ⟨rfl, rfl, h1⟩ := h
    obtain rfl := String.ext h1
    rfl)

/-- Modelled from the spec: `File.SortBlocks`, missing from the repository (step
(b) of Finalize: "deterministic ordering of all directive blocks (stable,
canonical sort — e.g., lexicographic by path/version)"). -/
def Lib.SortBlocks [LinearOrder V] (f : File V) : File V :=
  { f with
    Require := f.Require.insertionSort (· ≤ ·)
    Exclude := f.Exclude.insertionSort (· ≤ ·)
    Replace := f.Replace.insertionSort (· ≤ ·)
    Retract := f.Retract.insertionSort (· ≤ ·) }

/-- The manifest library, which is missing from the repository: the operations
above. -/
def libModfile [LinearOrder V] : Modfile V where
  Parse := Lib.Parse
  AddModuleStmt := Lib.AddModuleStmt
  AddNewRequire := Lib.AddNewRequire
  AddExclude := Lib.AddExclude
  AddReplace := Lib.AddReplace
  AddRetract := Lib.AddRetract
  AddGoStmt := Lib.AddGoStmt
  Cleanup := Lib.Cleanup
  SortBlocks := Lib.SortBlocks

/-! ## Contracts: what a claim on one field needs of the library -/

/-- What the claim on the module identity needs of the library: the empty target
has no module statement, `AddModuleStmt` sets it, and no other operation changes
it. -/
structure ModuleContract (L : Modfile V) : Prop where
  parse : ∀ m, L.Parse = .ok m → m.Module = none
  addModuleStmt : ∀ m path m1, L.AddModuleStmt m path = .ok m1 → m1.Module = some path
  addNewRequire : ∀ m p v i, (L.AddNewRequire m p v i).Module = m.Module
  addExclude : ∀ m p v m1, L.AddExclude m p v = .ok m1 → m1.Module = m.Module
  addReplace : ∀ m p v q w m1, L.AddReplace m p v q w = .ok m1 → m1.Module = m.Module
  addRetract : ∀ m vi r m1, L.AddRetract m vi r = .ok m1 → m1.Module = m.Module
  addGoStmt : ∀ m g m1, L.AddGoStmt m g = .ok m1 → m1.Module = m.Module
  cleanup : ∀ m, (L.Cleanup m).Module = m.Module
  sortBlocks : ∀ m, (L.SortBlocks m).Module = m.Module

/-- What the claim on the go version needs of the library: `AddGoStmt` sets the go
statement, and `Cleanup` and `SortBlocks` keep it. -/
structure GoContract (L : Modfile V) : Prop where
  addGoStmt : ∀ m g m1, L.AddGoStmt m g = .ok m1 → m1.Go = some ⟨g⟩
  cleanup : ∀ m, (L.Cleanup m).Go = m.Go
  sortBlocks : ∀ m, (L.SortBlocks m).Go = m.Go

/-- What the claim on retractions needs of the library: the empty target has none,
`AddRetract` appends the one it is given, no other `Add` operation changes the
list, and `Cleanup` and `SortBlocks` at most reorder it. -/
structure RetractContract (L : Modfile V) : Prop where
  parse : ∀ m, L.Parse = .ok m → m.Retract = []
  addModuleStmt : ∀ m path m1, L.AddModuleStmt m path = .ok m1 → m1.Retract = m.Retract
  addNewRequire : ∀ m p v i, (L.AddNewRequire m p v i).Retract = m.Retract
  addExclude : ∀ m p v m1, L.AddExclude m p v = .ok m1 → m1.Retract = m.Retract
  addReplace : ∀ m p v q w m1, L.AddReplace m p v q w = .ok m1 → m1.Retract = m.Retract
  addRetract : ∀ m vi r m1, L.AddRetract m vi r = .ok m1 → m1.Retract = m.Retract ++ [⟨vi, r⟩]
  addGoStmt : ∀ m g m1, L.AddGoStmt m g = .ok m1 → m1.Retract = m.Retract
  cleanup : ∀ m, (L.Cleanup m).Retract.Perm m.Retract
  sortBlocks : ∀ m, (L.SortBlocks m).Retract.Perm m.Retract

/-- What the claim on the copy of requirements needs of the library:
`AddNewRequire` appends a requirement with the path, version and flag it is
given. -/
structure RequireContract (L : Modfile V) : Prop where
  addNewRequire : ∀ m p v i, (L.AddNewRequire m p v i).Require = m.Require ++ [⟨⟨p, v⟩, i⟩]

/-! ## Auxiliary definitions -/

/-- The files among the results of `loadGoModFile`. -/
def loaded (inputs : List (Except (Error V) (File V))) : List (File V) :=
  inputs.filterMap (fun i => match i with
    | .ok f => some f
    | .error _ => none)

/-- A requirement as line 90 passes it on: its path and version, flag `false`. -/
def direct (r : Require V) : Require V :=
  ⟨⟨r.Mod.Path, r.Mod.Version⟩, false⟩

/-- The replacement of a parsed manifest with this old and new side: its line holds
both. -/
def Replace.parsed (old new : ModVersion (Option V)) : Replace V :=
  ⟨old, new, ⟨old, new⟩⟩

/-- A replacement as lines 97-101 pass it on: the fields `Old` and `New`, on a line
that holds them. -/
def asRead (r : Replace V) : Replace V :=
  Replace.parsed r.Old r.New

/-- The exclusions of the target after the copy of a list of exclusions under the
library. -/
def excludeAll [DecidableEq V] (xs : List (Exclude V)) (ys : List (Exclude V)) :
    List (Exclude V) :=
  ys.foldl Lib.addExclude xs

/-- The replacements of the target after the copy of a list of replacements under
the library. -/
def replaceAll [DecidableEq V] (rs : List (Replace V)) (ys : List (Replace V)) :
    List (Replace V) :=
  ys.foldl (fun acc r => Lib.addReplace acc r.Old.Path r.Old.Version r.New) rs

/-- One input merged into the target, under the library. -/
def merged [DecidableEq V] (m f : File V) : File V :=
  { Module := m.Module
    Go := f.Go
    Require := m.Require ++ f.Require.map direct
    Exclude := excludeAll m.Exclude f.Exclude
    Replace := replaceAll m.Replace f.Replace
    Retract := m.Retract ++ f.Retract }

/-- The target of lines 71-80 under the library. -/
def libInit (t : MergeTask) : File V :=
  ⟨if t.OutputPackageName ≠ "" then some t.OutputPackageName else none, none, [], [], [], []⟩

/-! ## Example manifests -/

/-- A manifest with a module statement and nothing else: no go statement. -/
def exampleNoGo : File Nat :=
  ⟨some "example.com/m", none, [], [], [], []⟩

/-- A manifest with an indirect requirement, an exclusion, a replacement of every
version of `example.com/r` and a retraction. -/
def exampleA : File Nat :=
  { Module := some "example.com/a"
    Go := some ⟨"1.20"⟩
    Require := [⟨⟨"example.com/x", 1⟩, true⟩, ⟨⟨"example.com/y", 5⟩, false⟩]
    Exclude := [⟨⟨"example.com/m", 1⟩⟩]
    Replace := [Replace.parsed ⟨"example.com/r", none⟩ ⟨"example.com/s", some 1⟩]
    Retract := [⟨⟨1, 2⟩, "broken"⟩] }

/-- A second manifest: a higher version of `example.com/x`, another version of the
excluded module, a replacement of version 1 of `example.com/r`, the same
retraction. -/
def exampleB : File Nat :=
  { Module := some "example.com/b"
    Go := some ⟨"1.21"⟩
    Require := [⟨⟨"example.com/x", 2⟩, false⟩, ⟨⟨"example.com/w", 5⟩, false⟩]
    Exclude := [⟨⟨"example.com/m", 2⟩⟩]
    Replace := [Replace.parsed ⟨"example.com/r", some 1⟩ ⟨"example.com/s", some 1⟩]
    Retract := [⟨⟨1, 2⟩, "broken"⟩] }

/-- A third manifest: a requirement, and a replacement of another path than those
of `exampleA`. -/
def exampleC : File Nat :=
  { Module := some "example.com/c"
    Go := some ⟨"1.19"⟩
    Require := [⟨⟨"example.com/y", 5⟩, false⟩]
    Exclude := [⟨⟨"example.com/m", 1⟩⟩]
    Replace := [Replace.parsed ⟨"example.com/q", some 3⟩ ⟨"../q", none⟩]
    Retract := [] }

/-- A manifest that excludes `example.com/m` at version 1. -/
def exampleExclude : File Nat :=
  ⟨none, some ⟨"1.21"⟩, [], [⟨⟨"example.com/m", 1⟩⟩], [], []⟩

/-- Another manifest that excludes `example.com/m` at version 1. -/
def exampleExclude2 : File Nat :=
  ⟨some "example.com/e", some ⟨"1.20"⟩, [], [⟨⟨"example.com/m", 1⟩⟩], [], []⟩

/-- A manifest that excludes `example.com/m` at version 1 twice. -/
def exampleExcludeTwice : File Nat :=
  ⟨none, some ⟨"1.21"⟩, [], [⟨⟨"example.com/m", 1⟩⟩, ⟨⟨"example.com/m", 1⟩⟩], [], []⟩

/-- A manifest that replaces every version of `example.com/m` by `example.com/n`
at version 1. -/
def exampleReplace1 : File Nat :=
  ⟨none, some ⟨"1.20"⟩, [], [], [Replace.parsed ⟨"example.com/m", none⟩ ⟨"example.com/n", some 1⟩],
    []⟩

/-- A manifest that replaces every version of `example.com/m` by `example.com/n`
at version 2. -/
def exampleReplace2 : File Nat :=
  ⟨none, some ⟨"1.21"⟩, [], [], [Replace.parsed ⟨"example.com/m", none⟩ ⟨"example.com/n", some 2⟩],
    []⟩

/-- Another manifest with the replacement of `exampleReplace1`. -/
def exampleReplace1b : File Nat :=
  ⟨some "example.com/e", some ⟨"1.21"⟩, [], [],
    [Replace.parsed ⟨"example.com/m", none⟩ ⟨"example.com/n", some 1⟩], []⟩

/-! ## `Run` for every library -/

theorem mergeOne_module_irrelevant (L : Modfile V) (modFile f : File V) (x : Option String) :
    mergeOne L modFile { f with Module := x } = mergeOne L modFile f := rfl

theorem mergeAll_module_irrelevant (L : Modfile V) (g : File V → Option String)
    (inputs : List (Except (Error V) (File V))) (modFile : File V) :
    mergeAll L modFile (inputs.map (Except.map (fun f => { f with Module := g f })))
      = mergeAll L modFile inputs := by
  induction inputs generalizing modFile with
  | nil => rfl
  | cons i rest ih =>
    cases i with
    | error e => rfl
    | ok f =>
      simp only [List.map_cons, Except.map, mergeAll, mergeOne_module_irrelevant]
      cases mergeOne L modFile f with
      | error s => rfl
      | ok m => exact ih m

theorem mergeAll_ok_all_loaded (L : Modfile V) (inputs : List (Except (Error V) (File V)))
    (modFile m : File V) (h : mergeAll L modFile inputs = .ok m) :
    ∀ i ∈ inputs, ∃ f, i = .ok f := by
  induction inputs generalizing modFile with
  | nil => simp
  | cons i rest ih =>
    cases i with
    | error e => simp [mergeAll] at h
    | ok f =>
      simp only [mergeAll] at h
      cases hm : mergeOne L modFile f with
      | error s => simp [hm] at h
      | ok m1 =>
        rw [hm] at h
        intro j hj
        rcases List.mem_cons.1 hj with rfl | hj
        · exact ⟨f, rfl⟩
        · exact ih m1 h j hj

theorem runBody_ok_iff (L : Modfile V) (t : MergeTask) (inputs : List (Except (Error V) (File V)))
    (out : File V) :
    runBody L t inputs = .ok out ↔
      ∃ m0 m1 m2, initTarget L t = .ok m0 ∧ mergeAll L m0 inputs = .ok m1 ∧
        overrideGo L t m1 = .ok m2 ∧ out = L.SortBlocks (L.Cleanup m2) := by
  unfold runBody
  cases h0 : initTarget L t with
  | error e => simp
  | ok m0 =>
    cases h1 : mergeAll L m0 inputs with
    | error s => simp [h1]
    | ok m1 =>
      cases h2 : overrideGo L t m1 with
      | error e => simp [h1, h2]
      | ok m2 =>
        simp only [h1, h2, Except.ok.injEq]
        constructor
        · intro h
          exact ⟨m0, m1, m2, rfl, h1, h2, h.symm⟩
        · rintro ⟨a, b, c, ha, hb, hc, rfl⟩
          cases ha
          rw [h1] at hb
          cases hb
          rw [h2] at hc
          cases hc
          rfl

theorem Run_nil_iff (L : Modfile V) (t : MergeTask) (inputs : List (Except (Error V) (File V))) :
    (Run L t inputs).ret = .nil ↔ ∃ out, runBody L t inputs = .ok out := by
  unfold Run
  cases h : runBody L t inputs with
  | ok m => simp
  | error s => cases s <;> simp

theorem Run_ret_of_stdout (L : Modfile V) (t : MergeTask)
    (inputs : List (Except (Error V) (File V))) (h : (Run L t inputs).stdout ≠ []) :
    (Run L t inputs).ret = .nil := by
  unfold Run at h ⊢
  cases hb : runBody L t inputs with
  | ok out => rfl
  | error s => cases s <;> simp [hb] at h

theorem Run_stdout_of_runBody_ok (L : Modfile V) (t : MergeTask)
    (inputs : List (Except (Error V) (File V))) (out : File V)
    (h : runBody L t inputs = .ok out) : (Run L t inputs).stdout = [out] := by
  simp [Run, h]

theorem loaded_cons_ok (f : File V) (rest : List (Except (Error V) (File V))) :
    loaded (.ok f :: rest) = f :: loaded rest := rfl

theorem loaded_perm {i₁ i₂ : List (Except (Error V) (File V))} (h : i₁.Perm i₂) :
    (loaded i₁).Perm (loaded i₂) :=
  List.Perm.filterMap _ h

theorem copyGo_ok_iff (L : Modfile V) (m f m1 : File V) :
    copyGo L m f = .ok m1 ↔ ∃ g, f.Go = some g ∧ L.AddGoStmt m g.Version = .ok m1 := by
  unfold copyGo
  cases hg : f.Go with
  | none => simp
  | some g =>
    cases ha : L.AddGoStmt m g.Version with
    | error e => simp [ha]
    | ok a => simp [ha]

theorem mergeOne_ok_iff (L : Modfile V) (m f m1 : File V) :
    mergeOne L m f = .ok m1 ↔
      ∃ a b c, copyExclude L (copyRequire L m f.Require) f.Exclude = .ok a ∧
        copyReplace L a f.Replace = .ok b ∧ copyRetract L b f.Retract = .ok c ∧
        copyGo L c f = .ok m1 := by
  unfold mergeOne
  cases h1 : copyExclude L (copyRequire L m f.Require) f.Exclude with
  | error e => simp
  | ok a =>
    cases h2 : copyReplace L a f.Replace with
    | error e => simp [h2]
    | ok b =>
      cases h3 : copyRetract L b f.Retract with
      | error e => simp [h2, h3]
      | ok c => simp [h2, h3]

theorem mergeOne_fault (L : Modfile V) (m f : File V)
    (h : mergeOne L m f = .error .fault) : f.Go = none := by
  unfold mergeOne at h
  cases h1 : copyExclude L (copyRequire L m f.Require) f.Exclude with
  | error e => simp [h1] at h
  | ok a =>
    simp only [h1] at h
    cases h2 : copyReplace L a f.Replace with
    | error e => simp [h2] at h
    | ok b =>
      simp only [h2] at h
      cases h3 : copyRetract L b f.Retract with
      | error e => simp [h3] at h
      | ok c =>
        simp only [h3] at h
        unfold copyGo at h
        cases hg : f.Go with
        | none => rfl
        | some g =>
          simp only [hg] at h
          cases h4 : L.AddGoStmt c g.Version with
          | error e => simp [h4] at h
          | ok d => simp [h4] at h

theorem mergeAll_fault (L : Modfile V) (inputs : List (Except (Error V) (File V))) (m : File V)
    (h : mergeAll L m inputs = .error .fault) : ∃ f ∈ loaded inputs, f.Go = none := by
  induction inputs generalizing m with
  | nil => simp [mergeAll] at h
  | cons i rest ih =>
    cases i with
    | error e => simp [mergeAll] at h
    | ok f =>
      simp only [mergeAll] at h
      cases hm : mergeOne L m f with
      | error s =>
        rw [hm] at h
        simp only [Except.error.injEq] at h
        subst h
        exact ⟨f, List.mem_cons_self _ _, mergeOne_fault L m f hm⟩
      | ok m1 =>
        rw [hm] at h
        obtain ⟨g, hg, hgo⟩ := ih m1 h
        exact ⟨g, List.mem_cons_of_mem _ hg, hgo⟩

/-- For every library: `Run` faults only when a loaded input has no go
statement. -/
theorem Run_fault (L : Modfile V) (t : MergeTask) (inputs : List (Except (Error V) (File V)))
    (h : (Run L t inputs).ret = .fault) : ∃ f ∈ loaded inputs, f.Go = none := by
  unfold Run at h
  cases hb : runBody L t inputs with
  | ok out => simp [hb] at h
  | error s =>
    cases s with
    | error e => simp [hb] at h
    | fault =>
      unfold runBody at hb
      cases h0 : initTarget L t with
      | error e => simp [h0] at hb
      | ok m0 =>
        simp only [h0] at hb
        cases h1 : mergeAll L m0 inputs with
        | error s =>
          simp only [h1, Except.error.injEq] at hb
          subst hb
          exact mergeAll_fault L inputs m0 h1
        | ok m1 =>
          simp only [h1] at hb
          cases h2 : overrideGo L t m1 with
          | error e => simp [h2] at hb
          | ok m2 => simp [h2] at hb

/-! ## `Run` for every library that meets a contract -/

theorem copyRequire_frame {α : Type} (π : File V → α) (L : Modfile V)
    (h : ∀ m p v i, π (L.AddNewRequire m p v i) = π m) (m : File V) (rs : List (Require V)) :
    π (copyRequire L m rs) = π m := by
  induction rs generalizing m with
  | nil => rfl
  | cons r rs ih => rw [copyRequire, ih, h]

theorem copyExclude_frame {α : Type} (π : File V → α) (L : Modfile V)
    (h : ∀ m p v m1, L.AddExclude m p v = .ok m1 → π m1 = π m) (m m1 : File V)
    (xs : List (Exclude V)) (hc : copyExclude L m xs = .ok m1) : π m1 = π m := by
  induction xs generalizing m with
  | nil => simp only [copyExclude, Except.ok.injEq] at hc; rw [hc]
  | cons x xs ih =>
    simp only [copyExclude] at hc
    cases ha : L.AddExclude m x.Mod.Path x.Mod.Version with
    | error e => simp [ha] at hc
    | ok a => rw [ha] at hc; rw [ih a hc, h _ _ _ _ ha]

theorem copyReplace_frame {α : Type} (π : File V → α) (L : Modfile V)
    (h : ∀ m p v q w m1, L.AddReplace m p v q w = .ok m1 → π m1 = π m) (m m1 : File V)
    (rs : List (Replace V)) (hc : copyReplace L m rs = .ok m1) : π m1 = π m := by
  induction rs generalizing m with
  | nil => simp only [copyReplace, Except.ok.injEq] at hc; rw [hc]
  | cons r rs ih =>
    simp only [copyReplace] at hc
    cases ha : L.AddReplace m r.Old.Path r.Old.Version r.New.Path r.New.Version with
    | error e => simp [ha] at hc
    | ok a => rw [ha] at hc; rw [ih a hc, h _ _ _ _ _ _ ha]

theorem copyRetract_frame {α : Type} (π : File V → α) (L : Modfile V)
    (h : ∀ m vi r m1, L.AddRetract m vi r = .ok m1 → π m1 = π m) (m m1 : File V)
    (rs : List (Retract V)) (hc : copyRetract L m rs = .ok m1) : π m1 = π m := by
  induction rs generalizing m with
  | nil => simp only [copyRetract, Except.ok.injEq] at hc; rw [hc]
  | cons r rs ih =>
    simp only [copyRetract] at hc
    cases ha : L.AddRetract m r.VersionInterval r.Rationale with
    | error e => simp [ha] at hc
    | ok a => rw [ha] at hc; rw [ih a hc, h _ _ _ _ ha]

theorem mergeOne_frame {α : Type} (π : File V → α) (L : Modfile V)
    (hq : ∀ m p v i, π (L.AddNewRequire m p v i) = π m)
    (hx : ∀ m p v m1, L.AddExclude m p v = .ok m1 → π m1 = π m)
    (hp : ∀ m p v q w m1, L.AddReplace m p v q w = .ok m1 → π m1 = π m)
    (m f c m1 : File V)
    (hc : ∃ a b, copyExclude L (copyRequire L m f.Require) f.Exclude = .ok a ∧
        copyReplace L a f.Replace = .ok b ∧ copyRetract L b f.Retract = .ok c ∧
        copyGo L c f = .ok m1) :
    ∃ b, π b = π m ∧ copyRetract L b f.Retract = .ok c ∧ copyGo L c f = .ok m1 := by
  obtain ⟨a, b, h1, h2, h3, h4⟩ := hc
  refine ⟨b, ?_, h3, h4⟩
  rw [copyReplace_frame π L hp a b _ h2, copyExclude_frame π L hx _ a _ h1,
    copyRequire_frame π L hq]

theorem mergeOne_module (L : Modfile V) (hL : ModuleContract L) (m f m1 : File V)
    (h : mergeOne L m f = .ok m1) : m1.Module = m.Module := by
  obtain ⟨a, b, c, h1, h2, h3, h4⟩ := (mergeOne_ok_iff L m f m1).1 h
  obtain ⟨b', hb, h3', h4'⟩ := mergeOne_frame (fun x => x.Module) L hL.addNewRequire
    hL.addExclude hL.addReplace m f c m1 ⟨a, b, h1, h2, h3, h4⟩
  obtain ⟨g, _, hg⟩ := (copyGo_ok_iff L c f m1).1 h4'
  rw [hL.addGoStmt _ _ _ hg, copyRetract_frame (fun x => x.Module) L hL.addRetract b' c _ h3']
  exact hb

theorem mergeAll_module (L : Modfile V) (hL : ModuleContract L)
    (inputs : List (Except (Error V) (File V))) (m m1 : File V)
    (h : mergeAll L m inputs = .ok m1) : m1.Module = m.Module := by
  induction inputs generalizing m with
  | nil => simp only [mergeAll, Except.ok.injEq] at h; rw [h]
  | cons i rest ih =>
    cases i with
    | error e => simp [mergeAll] at h
    | ok f =>
      simp only [mergeAll] at h
      cases hm : mergeOne L m f with
      | error s => simp [hm] at h
      | ok m2 => rw [hm] at h; rw [ih m2 h, mergeOne_module L hL m f m2 hm]

theorem mergeOne_go (L : Modfile V) (hL : GoContract L) (m f m1 : File V)
    (h : mergeOne L m f = .ok m1) : m1.Go = f.Go ∧ f.Go ≠ none := by
  obtain ⟨a, b, c, _, _, _, h4⟩ := (mergeOne_ok_iff L m f m1).1 h
  obtain ⟨g, hg, ha⟩ := (copyGo_ok_iff L c f m1).1 h4
  rw [hL.addGoStmt _ _ _ ha, hg]
  exact ⟨rfl, by simp⟩

theorem mergeAll_go (L : Modfile V) (hL : GoContract L) (files : List (File V))
    (hne : files ≠ []) (m m1 : File V) (h : mergeAll L m (files.map .ok) = .ok m1) :
    m1.Go = (files.getLast hne).Go ∧ m1.Go ≠ none := by
  induction files generalizing m with
  | nil => exact absurd rfl hne
  | cons f fs ih =>
    simp only [List.map_cons, mergeAll] at h
    cases hm : mergeOne L m f with
    | error s => simp [hm] at h
    | ok m2 =>
      rw [hm] at h
      cases fs with
      | nil =>
        simp only [List.map_nil, mergeAll, Except.ok.injEq] at h
        subst h
        obtain ⟨h1, h2⟩ := mergeOne_go L hL m f m2 hm
        exact ⟨h1, h1 ▸ h2⟩
      | cons g gs => exact ih (List.cons_ne_nil _ _) m2 h

theorem mergeOne_retract (L : Modfile V) (hL : RetractContract L) (m f m1 : File V)
    (h : mergeOne L m f = .ok m1) : m1.Retract = m.Retract ++ f.Retract := by
  obtain ⟨a, b, c, h1, h2, h3, h4⟩ := (mergeOne_ok_iff L m f m1).1 h
  obtain ⟨b', hb, h3', h4'⟩ := mergeOne_frame (fun x => x.Retract) L hL.addNewRequire
    hL.addExclude hL.addReplace m f c m1 ⟨a, b, h1, h2, h3, h4⟩
  obtain ⟨g, _, hg⟩ := (copyGo_ok_iff L c f m1).1 h4'
  rw [hL.addGoStmt _ _ _ hg]
  have : ∀ (rs : List (Retract V)) (x y : File V), copyRetract L x rs = .ok y →
      y.Retract = x.Retract ++ rs := by
    intro rs
    induction rs with
    | nil =>
      intro x y hxy
      simp only [copyRetract, Except.ok.injEq] at hxy
      rw [hxy, List.append_nil]
    | cons r rs ih =>
      intro x y hxy
      simp only [copyRetract] at hxy
      cases ha : L.AddRetract x r.VersionInterval r.Rationale with
      | error e => simp [ha] at hxy
      | ok z =>
        rw [ha] at hxy
        rw [ih z y hxy, hL.addRetract _ _ _ _ ha, List.append_assoc]
        rfl
  rw [this _ _ _ h3']
  exact congrArg (· ++ f.Retract) hb

theorem mergeAll_retract (L : Modfile V) (hL : RetractContract L)
    (inputs : List (Except (Error V) (File V))) (m m1 : File V)
    (h : mergeAll L m inputs = .ok m1) :
    m1.Retract = m.Retract ++ (loaded inputs).flatMap (fun f => f.Retract) := by
  induction inputs generalizing m with
  | nil => simp only [mergeAll, Except.ok.injEq] at h; rw [h]; simp [loaded]
  | cons i rest ih =>
    cases i with
    | error e => simp [mergeAll] at h
    | ok f =>
      simp only [mergeAll] at h
      cases hm : mergeOne L m f with
      | error s => simp [hm] at h
      | ok m2 =>
        rw [hm] at h
        rw [ih m2 h, mergeOne_retract L hL m f m2 hm, loaded_cons_ok, List.flatMap_cons,
          List.append_assoc]

theorem copyRequire_contract (L : Modfile V) (hL : RequireContract L) (m : File V)
    (rs : List (Require V)) :
    (copyRequire L m rs).Require = m.Require ++ rs.map direct := by
  induction rs generalizing m with
  | nil => simp [copyRequire]
  | cons r rs ih =>
    rw [copyRequire, ih, hL.addNewRequire, List.append_assoc]
    rfl

/-! ## `Run` under the library -/

theorem excludeAll_append [DecidableEq V] (xs a b : List (Exclude V)) :
    excludeAll xs (a ++ b) = excludeAll (excludeAll xs a) b := by
  simp [excludeAll, List.foldl_append]

theorem replaceAll_append [DecidableEq V] (rs a b : List (Replace V)) :
    replaceAll rs (a ++ b) = replaceAll (replaceAll rs a) b := by
  simp [replaceAll, List.foldl_append]

theorem mem_excludeAll [DecidableEq V] (ys xs : List (Exclude V)) (x : Exclude V) :
    x ∈ excludeAll xs ys ↔ x ∈ xs ∨ x ∈ ys := by
  induction ys generalizing xs with
  | nil => simp [excludeAll]
  | cons y ys ih =>
    have h : excludeAll xs (y :: ys) = excludeAll (Lib.addExclude xs y) ys := rfl
    rw [h, ih]
    unfold Lib.addExclude
    by_cases hy : y ∈ xs
    · simp only [hy, if_true, List.mem_cons]
      constructor
      · rintro (h1 | h1)
        · exact Or.inl h1
        · exact Or.inr (Or.inr h1)
      · rintro (h1 | rfl | h1)
        · exact Or.inl h1
        · exact Or.inl hy
        · exact Or.inr h1
    · simp only [hy, if_false, List.mem_append, List.mem_singleton, List.mem_cons]
      tauto

theorem nodup_excludeAll [DecidableEq V] (ys xs : List (Exclude V)) (h : xs.Nodup) :
    (excludeAll xs ys).Nodup := by
  induction ys generalizing xs with
  | nil => exact h
  | cons y ys ih =>
    have e : excludeAll xs (y :: ys) = excludeAll (Lib.addExclude xs y) ys := rfl
    rw [e]
    apply ih
    unfold Lib.addExclude
    by_cases hy : y ∈ xs
    · simp only [hy, if_true]; exact h
    · simp only [hy, if_false]
      exact List.Nodup.append h (List.nodup_singleton y)
        (fun a ha ha2 => hy (List.mem_singleton.1 ha2 ▸ ha))

theorem replaceAll_of_distinct [DecidableEq V] (ys rs : List (Replace V))
    (h : (rs.map (fun r => r.Old.Path) ++ ys.map (fun r => r.Old.Path)).Nodup) :
    replaceAll rs ys = rs ++ ys.map asRead := by
  induction ys generalizing rs with
  | nil => simp [replaceAll]
  | cons y ys ih =>
    have e : replaceAll rs (y :: ys)
        = replaceAll (Lib.addReplace rs y.Old.Path y.Old.Version y.New) ys := rfl
    have hno : rs.any (Lib.matchesOld y.Old.Path y.Old.Version) = false := by
      rw [List.any_eq_false]
      intro r hr hm
      simp only [Lib.matchesOld, Bool.and_eq_true, decide_eq_true_eq] at hm
      have hd := (List.nodup_append.1 h).2.2
      exact hd (List.mem_map.2 ⟨r, hr, rfl⟩) (hm.1 ▸ List.mem_map.2 ⟨y, List.mem_cons_self _ _, rfl⟩)
    have e2 : Lib.addReplace rs y.Old.Path y.Old.Version y.New = rs ++ [asRead y] := by
      simp only [Lib.addReplace, hno, Bool.false_eq_true, if_false]
      rfl
    rw [e, e2, ih]
    · simp
    · have hp : (rs ++ [asRead y]).map (fun r => r.Old.Path)
          = rs.map (fun r => r.Old.Path) ++ [y.Old.Path] := by
        simp [asRead, Replace.parsed]
      rw [hp, List.append_assoc]
      simpa using h

theorem foldl_merged_fields [DecidableEq V] (files : List (File V)) (m : File V) :
    (files.foldl merged m).Module = m.Module ∧
    (files.foldl merged m).Require = m.Require ++ files.flatMap (fun f => f.Require.map direct) ∧
    (files.foldl merged m).Exclude
      = excludeAll m.Exclude (files.flatMap (fun f => f.Exclude)) ∧
    (files.foldl merged m).Replace
      = replaceAll m.Replace (files.flatMap (fun f => f.Replace)) ∧
    (files.foldl merged m).Retract = m.Retract ++ files.flatMap (fun f => f.Retract) := by
  induction files generalizing m with
  | nil => simp [excludeAll, replaceAll]
  | cons f fs ih =>
    obtain ⟨h1, h2, h3, h4, h5⟩ := ih (merged m f)
    simp only [List.foldl_cons, List.flatMap_cons]
    refine ⟨h1, ?_, ?_, ?_, ?_⟩
    · rw [h2]; simp [merged]
    · rw [h3, excludeAll_append]; rfl
    · rw [h4, replaceAll_append]; rfl
    · rw [h5]; simp [merged]

section Library

variable [LinearOrder V]

theorem libModfile_moduleContract : ModuleContract (libModfile : Modfile V) where
  parse := by intro m h; simp only [libModfile, Lib.Parse, Except.ok.injEq] at h; rw [← h]
  addModuleStmt := by
    intro m p m1 h; simp only [libModfile, Lib.AddModuleStmt, Except.ok.injEq] at h; rw [← h]
  addNewRequire := fun _ _ _ _ => rfl
  addExclude := by
    intro m p v m1 h; simp only [libModfile, Lib.AddExclude, Except.ok.injEq] at h; rw [← h]
  addReplace := by
    intro m p v q w m1 h; simp only [libModfile, Lib.AddReplace, Except.ok.injEq] at h; rw [← h]
  addRetract := by
    intro m vi r m1 h; simp only [libModfile, Lib.AddRetract, Except.ok.injEq] at h; rw [← h]
  addGoStmt := by
    intro m g m1 h; simp only [libModfile, Lib.AddGoStmt, Except.ok.injEq] at h; rw [← h]
  cleanup := fun _ => rfl
  sortBlocks := fun _ => rfl

theorem libModfile_goContract : GoContract (libModfile : Modfile V) where
  addGoStmt := by
    intro m g m1 h; simp only [libModfile, Lib.AddGoStmt, Except.ok.injEq] at h; rw [← h]
  cleanup := fun _ => rfl
  sortBlocks := fun _ => rfl

theorem libModfile_retractContract : RetractContract (libModfile : Modfile V) where
  parse := by intro m h; simp only [libModfile, Lib.Parse, Except.ok.injEq] at h; rw [← h]
  addModuleStmt := by
    intro m p m1 h; simp only [libModfile, Lib.AddModuleStmt, Except.ok.injEq] at h; rw [← h]
  addNewRequire := fun _ _ _ _ => rfl
  addExclude := by
    intro m p v m1 h; simp only [libModfile, Lib.AddExclude, Except.ok.injEq] at h; rw [← h]
  addReplace := by
    intro m p v q w m1 h; simp only [libModfile, Lib.AddReplace, Except.ok.injEq] at h; rw [← h]
  addRetract := by
    intro m vi r m1 h; simp only [libModfile, Lib.AddRetract, Except.ok.injEq] at h; rw [← h]
  addGoStmt := by
    intro m g m1 h; simp only [libModfile, Lib.AddGoStmt, Except.ok.injEq] at h; rw [← h]
  cleanup := fun _ => List.Perm.refl _
  sortBlocks := fun _ => List.perm_insertionSort _ _

theorem libModfile_requireContract : RequireContract (libModfile : Modfile V) where
  addNewRequire := fun _ _ _ _ => rfl

theorem copyRequire_lib (m : File V) (rs : List (Require V)) :
    copyRequire libModfile m rs = { m with Require := m.Require ++ rs.map direct } := by
  induction rs generalizing m with
  | nil => simp [copyRequire]
  | cons r rs ih =>
    simp only [copyRequire]
    rw [ih]
    simp [libModfile, Lib.AddNewRequire, direct]

theorem copyExclude_lib (m : File V) (xs : List (Exclude V)) :
    copyExclude libModfile m xs = .ok { m with Exclude := excludeAll m.Exclude xs } := by
  induction xs generalizing m with
  | nil => rfl
  | cons x xs ih =>
    have := ih { m with Exclude := Lib.addExclude m.Exclude x }
    simp only [libModfile] at this
    simp only [copyExclude, libModfile, Lib.AddExclude, this]
    rfl

theorem copyReplace_lib (m : File V) (rs : List (Replace V)) :
    copyReplace libModfile m rs = .ok { m with Replace := replaceAll m.Replace rs } := by
  induction rs generalizing m with
  | nil => rfl
  | cons r rs ih =>
    have := ih { m with Replace := Lib.addReplace m.Replace r.Old.Path r.Old.Version r.New }
    simp only [libModfile] at this
    simp only [copyReplace, libModfile, Lib.AddReplace, this]
    rfl

theorem copyRetract_lib (m : File V) (rs : List (Retract V)) :
    copyRetract libModfile m rs = .ok { m with Retract := m.Retract ++ rs } := by
  induction rs generalizing m with
  | nil => simp [copyRetract]
  | cons r rs ih =>
    have := ih { m with Retract := m.Retract ++ [r] }
    simp only [libModfile] at this
    simp [copyRetract, libModfile, Lib.AddRetract, this]

theorem mergeOne_lib (m f m1 : File V) :
    mergeOne libModfile m f = .ok m1 ↔ f.Go ≠ none ∧ m1 = merged m f := by
  unfold mergeOne
  rw [copyRequire_lib, copyExclude_lib]
  simp only [copyReplace_lib, copyRetract_lib, copyGo]
  cases hg : f.Go with
  | none => simp
  | some g =>
    simp only [libModfile, Lib.AddGoStmt, Except.ok.injEq, ne_eq, reduceCtorEq,
      not_false_eq_true, true_and, merged, hg]
    exact eq_comm

theorem mergeAll_lib_ok (inputs : List (Except (Error V) (File V))) (m m1 : File V)
    (h : mergeAll libModfile m inputs = .ok m1) :
    m1 = (loaded inputs).foldl merged m ∧ inputs = (loaded inputs).map .ok ∧
      ∀ f ∈ loaded inputs, f.Go ≠ none := by
  induction inputs generalizing m with
  | nil =>
    simp only [mergeAll, Except.ok.injEq] at h
    subst h
    exact ⟨rfl, rfl, by simp [loaded]⟩
  | cons i rest ih =>
    cases i with
    | error e => simp [mergeAll] at h
    | ok f =>
      simp only [mergeAll] at h
      cases hm : mergeOne libModfile m f with
      | error s => simp [hm] at h
      | ok m2 =>
        rw [hm] at h
        obtain ⟨hg, rfl⟩ := (mergeOne_lib m f m2).1 hm
        obtain ⟨h1, h2, h3⟩ := ih _ h
        rw [loaded_cons_ok, List.foldl_cons, List.map_cons, ← h2]
        refine ⟨h1, rfl, ?_⟩
        intro g hg2
        rcases List.mem_cons.1 hg2 with rfl | hg2
        · exact hg
        · exact h3 g hg2

theorem mergeAll_lib_of_go (files : List (File V)) (m : File V)
    (h : ∀ f ∈ files, f.Go ≠ none) :
    mergeAll libModfile m (files.map .ok) = .ok (files.foldl merged m) := by
  induction files generalizing m with
  | nil => rfl
  | cons f fs ih =>
    have hm : mergeOne libModfile m f = .ok (merged m f) :=
      (mergeOne_lib m f _).2 ⟨h f (List.mem_cons_self _ _), rfl⟩
    simp only [List.map_cons, mergeAll, hm, List.foldl_cons]
    exact ih _ (fun g hg => h g (List.mem_cons_of_mem _ hg))

theorem initTarget_lib (t : MergeTask) :
    initTarget (libModfile : Modfile V) t = .ok (libInit t) := by
  unfold initTarget libInit
  by_cases h : t.OutputPackageName = "" <;>
    simp [h, libModfile, Lib.Parse, Lib.AddModuleStmt]

theorem overrideGo_lib (t : MergeTask) (m : File V) :
    overrideGo libModfile t m =
      .ok { m with Go := if t.OutputGoVersion ≠ "" then some ⟨t.OutputGoVersion⟩ else m.Go } := by
  unfold overrideGo
  by_cases h : t.OutputGoVersion = "" <;> simp [h, libModfile, Lib.AddGoStmt]

theorem Run_lib_nil_iff (t : MergeTask) (inputs : List (Except (Error V) (File V))) :
    (Run libModfile t inputs).ret = .nil ↔
      inputs = (loaded inputs).map .ok ∧ ∀ f ∈ loaded inputs, f.Go ≠ none := by
  constructor
  · intro h
    obtain ⟨out, hb⟩ := (Run_nil_iff _ _ _).1 h
    obtain ⟨m0, m1, m2, h0, h1, _, _⟩ := (runBody_ok_iff _ _ _ _).1 hb
    exact (mergeAll_lib_ok inputs m0 m1 h1).2
  · rintro ⟨h1, h2⟩
    have hm := mergeAll_lib_of_go (loaded inputs) (libInit t) h2
    rw [← h1] at hm
    exact (Run_nil_iff _ _ _).2
      ⟨_, (runBody_ok_iff _ _ _ _).2 ⟨_, _, _, initTarget_lib t, hm, overrideGo_lib t _, rfl⟩⟩

theorem Run_lib_printed (t : MergeTask) (inputs : List (Except (Error V) (File V)))
    (h : (Run libModfile t inputs).ret = .nil) :
    ∃ out, (Run libModfile t inputs).stdout = [out] ∧
      out.Require
        = ((loaded inputs).flatMap (fun f => f.Require.map direct)).insertionSort (· ≤ ·) ∧
      out.Exclude
        = (excludeAll [] ((loaded inputs).flatMap (fun f => f.Exclude))).insertionSort (· ≤ ·) ∧
      out.Replace
        = (replaceAll [] ((loaded inputs).flatMap (fun f => f.Replace))).insertionSort (· ≤ ·) := by
  obtain ⟨out, hb⟩ := (Run_nil_iff _ _ _).1 h
  refine ⟨out, Run_stdout_of_runBody_ok _ _ _ _ hb, ?_⟩
  obtain ⟨m0, m1, m2, h0, h1, h2, rfl⟩ := (runBody_ok_iff _ _ _ _).1 hb
  rw [initTarget_lib] at h0
  cases h0
  obtain ⟨rfl, _, _⟩ := mergeAll_lib_ok _ _ _ h1
  rw [overrideGo_lib] at h2
  cases h2
  obtain ⟨_, f2, f3, f4, _⟩ := foldl_merged_fields (loaded inputs) (libInit t (V := V))
  refine ⟨?_, ?_, ?_⟩
  · show (((loaded inputs).foldl merged (libInit t)).Require).insertionSort (· ≤ ·) = _
    rw [f2]; rfl
  · show (((loaded inputs).foldl merged (libInit t)).Exclude).insertionSort (· ≤ ·) = _
    rw [f3]; rfl
  · show (((loaded inputs).foldl merged (libInit t)).Replace).insertionSort (· ≤ ·) = _
    rw [f4]; rfl

theorem insertionSort_eq_of_perm {α : Type} [LinearOrder α] {l₁ l₂ : List α} (h : l₁.Perm l₂) :
    l₁.insertionSort (· ≤ ·) = l₂.insertionSort (· ≤ ·) :=
  List.eq_of_perm_of_sorted
    ((List.perm_insertionSort _ _).trans (h.trans (List.perm_insertionSort _ _).symm))
    (List.sorted_insertionSort _ _) (List.sorted_insertionSort _ _)

end Library

/-! ## The claims -/

/-- C6: whenever `Run` returns an error, and whenever it faults, it has written
nothing to standard output.  When it has written something, it returned nil, every
input was loaded and merged, the go override was applied, and the one manifest
printed is the target after `Cleanup` and `SortBlocks`.  This holds for every
library. -/
theorem Run_prints_only_on_success (L : Modfile V) (t : MergeTask)
    (inputs : List (Except (Error V) (File V))) :
    (∀ e, (Run L t inputs).ret = .err e → (Run L t inputs).stdout = []) ∧
    ((Run L t inputs).ret = .fault → (Run L t inputs).stdout = []) ∧
    ((Run L t inputs).stdout ≠ [] →
      (Run L t inputs).ret = .nil ∧ (∀ i ∈ inputs, ∃ f, i = .ok f) ∧
      ∃ m0 m1 m2, initTarget L t = .ok m0 ∧ mergeAll L m0 inputs = .ok m1 ∧
        overrideGo L t m1 = .ok m2 ∧
        (Run L t inputs).stdout = [L.SortBlocks (L.Cleanup m2)]) := by
  cases hb : runBody L t inputs with
  | error s =>
    cases s <;> simp [Run, hb]
  | ok out =>
    obtain ⟨m0, m1, m2, h0, h1, h2, rfl⟩ := (runBody_ok_iff L t inputs out).1 hb
    refine ⟨by simp [Run, hb], by simp [Run, hb], fun _ => ⟨by simp [Run, hb], ?_, ?_⟩⟩
    · exact mergeAll_ok_all_loaded L inputs m0 m1 h1
    · exact ⟨m0, m1, m2, h0, h1, h2, by simp [Run, hb]⟩

/-- C10: the language-version step faults on an input without a go statement,
whatever the library and the target; `Run` on the one manifest `exampleNoGo` ends
in that fault for every library whose `Parse` succeeds, and so under the library, instead of leaving the target unchanged. -/
theorem Run_faults_on_input_without_go :
    (∀ (L : Modfile Nat) (modFile : File Nat), copyGo L modFile exampleNoGo = .error .fault) ∧
    (∀ (L : Modfile Nat) (m : File Nat), L.Parse = .ok m →
      Run L ⟨"", ""⟩ [.ok exampleNoGo] = ⟨[], .fault⟩) ∧
    Run (libModfile : Modfile Nat) ⟨"", ""⟩ [.ok exampleNoGo] = ⟨[], .fault⟩ := by
  refine ⟨fun _ _ => rfl, ?_, by decide⟩
  intro L m h
  simp [Run, runBody, initTarget, h, mergeAll, mergeOne, exampleNoGo, copyExclude, copyRequire,
    copyReplace, copyRetract, copyGo]

/-- C8, as stated: the copy step does not append every requirement verbatim; an
indirect requirement arrives with its flag cleared. -/
theorem copyRequire_not_verbatim :
    ¬ ∀ (m : File Nat) (rs : List (Require Nat)),
        (copyRequire libModfile m rs).Require = m.Require ++ rs := by
  intro h
  exact absurd (h ⟨none, none, [], [], [], []⟩ [⟨⟨"example.com/x", 1⟩, true⟩]) (by decide)

/-- C8, amended: for every library whose `AddNewRequire` appends the requirement it
is given, the copy step appends, for every requirement of the input and in order,
a requirement with the same path and the same version whose indirect flag is
`false`. -/
theorem copyRequire_appends_direct (L : Modfile V) (hL : RequireContract L) (m : File V)
    (rs : List (Require V)) :
    (copyRequire L m rs).Require
      = m.Require ++ rs.map (fun r => ⟨⟨r.Mod.Path, r.Mod.Version⟩, false⟩) :=
  copyRequire_contract L hL m rs

/-- C8, amended, at the requirements of `exampleA`, the first of them indirect. -/
theorem copyRequire_appends_direct_witness :
    (copyRequire (libModfile : Modfile Nat) exampleB exampleA.Require).Require
      = exampleB.Require
        ++ exampleA.Require.map (fun r => ⟨⟨r.Mod.Path, r.Mod.Version⟩, false⟩) :=
  copyRequire_appends_direct libModfile libModfile_requireContract exampleB exampleA.Require

/-- C4: for every library that sets the module statement in `AddModuleStmt` only,
a `Run` that succeeds prints one manifest whose module identity is
`OutputPackageName` when that is not empty and absent when it is empty.
Moreover, for every library at all, replacing the module statements of the inputs
by anything does not change what `Run` does. -/
theorem Run_module_identity (L : Modfile V) (hL : ModuleContract L) (t : MergeTask)
    (inputs : List (Except (Error V) (File V))) (h : (Run L t inputs).ret = .nil) :
    (∃ out, (Run L t inputs).stdout = [out] ∧
      (t.OutputPackageName ≠ "" → out.Module = some t.OutputPackageName) ∧
      (t.OutputPackageName = "" → out.Module = none)) ∧
    ∀ (L1 : Modfile V) (g : File V → Option String),
      Run L1 t (inputs.map (Except.map (fun f => { f with Module := g f }))) = Run L1 t inputs := by
  constructor
  · obtain ⟨out, hb⟩ := (Run_nil_iff _ _ _).1 h
    refine ⟨out, Run_stdout_of_runBody_ok _ _ _ _ hb, ?_⟩
    obtain ⟨m0, m1, m2, h0, h1, h2, rfl⟩ := (runBody_ok_iff _ _ _ _).1 hb
    have e2 : m2.Module = m1.Module := by
      unfold overrideGo at h2
      split at h2
      · exact hL.addGoStmt _ _ _ h2
      · simp only [Except.ok.injEq] at h2; rw [h2]
    rw [hL.sortBlocks, hL.cleanup, e2, mergeAll_module L hL inputs m0 m1 h1]
    unfold initTarget at h0
    cases hp : L.Parse with
    | error e => simp [hp] at h0
    | ok p =>
      simp only [hp] at h0
      constructor
      · intro hne
        simp only [hne, ne_eq, not_false_eq_true, if_true] at h0
        exact hL.addModuleStmt _ _ _ h0
      · intro he
        simp only [he, ne_eq, not_true_eq_false, if_false, Except.ok.injEq] at h0
        rw [← h0]
        exact hL.parse p hp
  · intro L1 g
    unfold Run runBody
    cases initTarget L1 t with
    | error e => rfl
    | ok m0 => simp only [mergeAll_module_irrelevant]

/-- C4 at `exampleA`, `exampleB` with the override `example.com/out`, under the library. -/
theorem Run_module_identity_witness :
    (∃ out, (Run (libModfile : Modfile Nat) ⟨"example.com/out", ""⟩
        [.ok exampleA, .ok exampleB]).stdout = [out] ∧
      (("example.com/out" : String) ≠ "" → out.Module = some "example.com/out") ∧
      (("example.com/out" : String) = "" → out.Module = none)) ∧
    ∀ (L1 : Modfile Nat) (g : File Nat → Option String),
      Run L1 ⟨"example.com/out", ""⟩
        ([.ok exampleA, .ok exampleB].map (Except.map (fun f => { f with Module := g f })))
        = Run L1 ⟨"example.com/out", ""⟩ [.ok exampleA, .ok exampleB] :=
  Run_module_identity libModfile libModfile_moduleContract ⟨"example.com/out", ""⟩
    [.ok exampleA, .ok exampleB] (by decide)

/-- C5: for every library whose `AddGoStmt` sets the go statement, a `Run` that
succeeds on a non-empty list of inputs prints one manifest; its go version is
`OutputGoVersion` when that is not empty, and otherwise the go statement of the
input processed last, which declares one. -/
theorem Run_go_version (L : Modfile V) (hL : GoContract L) (t : MergeTask)
    (files : List (File V)) (hne : files ≠ [])
    (h : (Run L t (files.map .ok)).ret = .nil) :
    ∃ out, (Run L t (files.map .ok)).stdout = [out] ∧
      (t.OutputGoVersion ≠ "" → out.Go = some ⟨t.OutputGoVersion⟩) ∧
      (t.OutputGoVersion = "" → out.Go = (files.getLast hne).Go ∧ out.Go ≠ none) := by
  obtain ⟨out, hb⟩ := (Run_nil_iff _ _ _).1 h
  refine ⟨out, Run_stdout_of_runBody_ok _ _ _ _ hb, ?_⟩
  obtain ⟨m0, m1, m2, h0, h1, h2, rfl⟩ := (runBody_ok_iff _ _ _ _).1 hb
  rw [hL.sortBlocks, hL.cleanup]
  unfold overrideGo at h2
  constructor
  · intro hv
    simp only [hv, ne_eq, not_false_eq_true, if_true] at h2
    exact hL.addGoStmt _ _ _ h2
  · intro hv
    simp only [hv, ne_eq, not_true_eq_false, if_false, Except.ok.injEq] at h2
    rw [← h2]
    exact mergeAll_go L hL files hne m0 m1 h1

/-- C5 at `exampleA`, `exampleB` without an override, under the library: the go
version of `exampleB`. -/
theorem Run_go_version_witness :
    ∃ out, (Run (libModfile : Modfile Nat) ⟨"", ""⟩ ([exampleA, exampleB].map .ok)).stdout = [out] ∧
      (("" : String) ≠ "" → out.Go = some ⟨""⟩) ∧
      (("" : String) = "" →
        out.Go = ([exampleA, exampleB].getLast (List.cons_ne_nil _ _)).Go ∧ out.Go ≠ none) :=
  Run_go_version libModfile libModfile_goContract ⟨"", ""⟩ [exampleA, exampleB]
    (List.cons_ne_nil _ _) (by decide)

/-- C9: for every library whose `AddRetract` appends the retraction it is given,
when `Run` succeeds the retractions of the target after the copy loop are the
retraction lists of the inputs, concatenated in processing order, and the printed
manifest holds the same retractions with the same multiplicities (`Cleanup` and
`SortBlocks` may reorder them).  Under the library the copy
of a list of retractions never fails: it appends the whole list. -/
theorem Run_retractions [LinearOrder V] (L : Modfile V) (hL : RetractContract L)
    (t : MergeTask) (inputs : List (Except (Error V) (File V)))
    (h : (Run L t inputs).ret = .nil) :
    (∃ m0 target out, initTarget L t = .ok m0 ∧ mergeAll L m0 inputs = .ok target ∧
      target.Retract = (loaded inputs).flatMap (fun f => f.Retract) ∧
      (Run L t inputs).stdout = [out] ∧
      out.Retract.Perm target.Retract ∧
      ∀ r, out.Retract.count r = ((loaded inputs).flatMap (fun f => f.Retract)).count r) ∧
    ∀ (m : File V) (rs : List (Retract V)),
      copyRetract libModfile m rs = .ok { m with Retract := m.Retract ++ rs } := by
  refine ⟨?_, copyRetract_lib⟩
  obtain ⟨out, hb⟩ := (Run_nil_iff _ _ _).1 h
  obtain ⟨m0, m1, m2, h0, h1, h2, rfl⟩ := (runBody_ok_iff _ _ _ _).1 hb
  have e0 : m0.Retract = [] := by
    unfold initTarget at h0
    cases hp : L.Parse with
    | error e => simp [hp] at h0
    | ok p =>
      simp only [hp] at h0
      split at h0
      · rw [hL.addModuleStmt _ _ _ h0, hL.parse p hp]
      · simp only [Except.ok.injEq] at h0; rw [← h0, hL.parse p hp]
  have e1 : m1.Retract = (loaded inputs).flatMap (fun f => f.Retract) := by
    rw [mergeAll_retract L hL inputs m0 m1 h1, e0, List.nil_append]
  have e2 : m2.Retract = m1.Retract := by
    unfold overrideGo at h2
    split at h2
    · exact hL.addGoStmt _ _ _ h2
    · simp only [Except.ok.injEq] at h2; rw [h2]
  have hp : (L.SortBlocks (L.Cleanup m2)).Retract.Perm m1.Retract :=
    e2 ▸ (hL.sortBlocks _).trans (hL.cleanup _)
  refine ⟨m0, m1, _, h0, h1, e1, Run_stdout_of_runBody_ok _ _ _ _ hb, hp, ?_⟩
  intro r
  rw [← e1]
  exact hp.count_eq r

/-- C9 at `exampleA`, `exampleB`, which hold the same retraction, under the library. -/
theorem Run_retractions_witness :
    (∃ m0 target out, initTarget (libModfile : Modfile Nat) ⟨"", ""⟩ = .ok m0 ∧
      mergeAll libModfile m0 [.ok exampleA, .ok exampleB] = .ok target ∧
      target.Retract = (loaded [.ok exampleA, .ok exampleB]).flatMap (fun f => f.Retract) ∧
      (Run libModfile ⟨"", ""⟩ [.ok exampleA, .ok exampleB]).stdout = [out] ∧
      out.Retract.Perm target.Retract ∧
      ∀ r, out.Retract.count r
        = ((loaded [.ok exampleA, .ok exampleB]).flatMap (fun f => f.Retract)).count r) ∧
    ∀ (m : File Nat) (rs : List (Retract Nat)),
      copyRetract libModfile m rs = .ok { m with Retract := m.Retract ++ rs } :=
  Run_retractions libModfile libModfile_retractContract ⟨"", ""⟩
    [.ok exampleA, .ok exampleB] (by decide)

section Finalize

variable [LinearOrder V]

/-- C1, amended: let A require X at v1 only and B require X at the higher v2 only,
and let `Run` on A then B return nil.  Then `Run` on B then A returns nil as well
and both runs print the same requirements.  The printed manifest keeps X at v1
beside X at v2: it holds as many requirements for X as A and B hold together, so
they are not the single requirement X at v2. -/
theorem Run_requirements_kept (t : MergeTask) (A B : File V) (X : String) (v1 v2 : V)
    (hlt : v1 < v2)
    (hA : ∃ r ∈ A.Require, r.Mod.Path = X)
    (hA1 : ∀ r ∈ A.Require, r.Mod.Path = X → r.Mod.Version = v1)
    (hB : ∃ r ∈ B.Require, r.Mod.Path = X)
    (hB2 : ∀ r ∈ B.Require, r.Mod.Path = X → r.Mod.Version = v2)
    (h : (Run libModfile t [.ok A, .ok B]).ret = .nil) :
    (Run libModfile t [.ok B, .ok A]).ret = .nil ∧
    ∃ out₁ out₂, (Run libModfile t [.ok A, .ok B]).stdout = [out₁] ∧
      (Run libModfile t [.ok B, .ok A]).stdout = [out₂] ∧
      out₁.Require = out₂.Require ∧
      (⟨⟨X, v1⟩, false⟩ : Require V) ∈ out₁.Require ∧
      (⟨⟨X, v2⟩, false⟩ : Require V) ∈ out₁.Require ∧
      (out₁.Require.filter (fun r => decide (r.Mod.Path = X))).length
        = (A.Require.filter (fun r => decide (r.Mod.Path = X))).length
          + (B.Require.filter (fun r => decide (r.Mod.Path = X))).length ∧
      out₁.Require.filter (fun r => decide (r.Mod.Path = X)) ≠ [⟨⟨X, v2⟩, false⟩] := by
  have hAB := (Run_lib_nil_iff t [.ok A, .ok B]).1 h
  have hBA : (Run libModfile t [.ok B, .ok A]).ret = .nil := by
    refine (Run_lib_nil_iff t [.ok B, .ok A]).2 ⟨rfl, ?_⟩
    intro f hf
    exact hAB.2 f ((loaded_perm
      (List.Perm.swap (Except.ok A : Except (Error V) (File V)) (Except.ok B) [])).mem_iff.1 hf)
  obtain ⟨out₁, ho1, r1, _, _⟩ := Run_lib_printed t _ h
  obtain ⟨out₂, ho2, r2, _, _⟩ := Run_lib_printed t _ hBA
  have hR : out₁.Require
      = (A.Require.map direct ++ B.Require.map direct).insertionSort (· ≤ ·) := by
    rw [r1]; simp [loaded]
  have hperm : out₁.Require.Perm (A.Require.map direct ++ B.Require.map direct) :=
    hR ▸ List.perm_insertionSort _ _
  have hm1 : (⟨⟨X, v1⟩, false⟩ : Require V) ∈ out₁.Require := by
    obtain ⟨r, hr, hrp⟩ := hA
    refine hperm.mem_iff.2 (List.mem_append_left _ (List.mem_map.2 ⟨r, hr, ?_⟩))
    simp only [direct, hrp, hA1 r hr hrp]
  have hm2 : (⟨⟨X, v2⟩, false⟩ : Require V) ∈ out₁.Require := by
    obtain ⟨r, hr, hrp⟩ := hB
    refine hperm.mem_iff.2 (List.mem_append_right _ (List.mem_map.2 ⟨r, hr, ?_⟩))
    simp only [direct, hrp, hB2 r hr hrp]
  have hlen : ∀ l : List (Require V),
      ((l.map direct).filter (fun r => decide (r.Mod.Path = X))).length
        = (l.filter (fun r => decide (r.Mod.Path = X))).length := by
    intro l
    induction l with
    | nil => rfl
    | cons a l ih =>
      by_cases ha : a.Mod.Path = X
      · simp [List.filter_cons, direct, ha] at ih ⊢
        exact ih
      · simp [List.filter_cons, direct, ha] at ih ⊢
        exact ih
  refine ⟨hBA, out₁, out₂, ho1, ho2, ?_, hm1, hm2, ?_, ?_⟩
  · rw [r1, r2]
    exact insertionSort_eq_of_perm
      (List.Perm.flatMap_right _ (loaded_perm
        (List.Perm.swap (Except.ok B : Except (Error V) (File V)) (Except.ok A) [])))
  · rw [(hperm.filter _).length_eq, List.filter_append, List.length_append, hlen, hlen]
  · intro he
    have : (⟨⟨X, v1⟩, false⟩ : Require V)
        ∈ out₁.Require.filter (fun r => decide (r.Mod.Path = X)) :=
      List.mem_filter.2 ⟨hm1, by simp⟩
    rw [he, List.mem_singleton] at this
    have hv : v1 = v2 := by
      have := congrArg (fun r : Require V => r.Mod.Version) this
      exact this
    exact absurd hv (ne_of_lt hlt)

/-- C2, amended: when a loaded input holds the exclusion (M, v), in one input or in
several, once or twice, and `Run` succeeds, the printed manifest holds that
exclusion exactly once; and the copy of a list of exclusions never returns an
error: the library reports no conflict for a pair that is already present. -/
theorem Run_duplicate_exclude_once (t : MergeTask)
    (inputs : List (Except (Error V) (File V))) (M : String) (v : V)
    (hx : ∃ f ∈ loaded inputs, (⟨⟨M, v⟩⟩ : Exclude V) ∈ f.Exclude)
    (h : (Run libModfile t inputs).ret = .nil) :
    (∃ out, (Run libModfile t inputs).stdout = [out] ∧
      out.Exclude.count ⟨⟨M, v⟩⟩ = 1) ∧
    ∀ (m : File V) (xs : List (Exclude V)), ∃ m1, copyExclude libModfile m xs = .ok m1 := by
  refine ⟨?_, fun m xs => ⟨_, copyExclude_lib m xs⟩⟩
  obtain ⟨out, ho, _, e1, _⟩ := Run_lib_printed t _ h
  refine ⟨out, ho, ?_⟩
  rw [e1, (List.perm_insertionSort _ _).count_eq]
  refine List.count_eq_one_of_mem (nodup_excludeAll _ _ List.nodup_nil) ?_
  obtain ⟨f, hf, hfx⟩ := hx
  exact (mem_excludeAll _ _ _).2 (Or.inr (List.mem_flatMap.2 ⟨f, hf, hfx⟩))

/-- C3, amended: let A and B each hold one replacement, both of the same source, and
let `Run` on A then B return nil.  Then the printed manifest holds one replacement:
that source with the destination of B, the input processed last, whether the two
destinations differ or not.  And the copy of a list of replacements never returns an
error: the library reports no conflict. -/
theorem Run_replace_last_wins (t : MergeTask) (A B : File V) (rA rB : Replace V)
    (hA : A.Replace = [rA]) (hB : B.Replace = [rB]) (hk : rA.Old = rB.Old)
    (h : (Run libModfile t [.ok A, .ok B]).ret = .nil) :
    (∃ out, (Run libModfile t [.ok A, .ok B]).stdout = [out] ∧
      out.Replace.map (fun r => r.Syntax) = [⟨rB.Old, rB.New⟩]) ∧
    ∀ (m : File V) (rs : List (Replace V)), ∃ m1, copyReplace libModfile m rs = .ok m1 := by
  refine ⟨?_, fun m rs => ⟨_, copyReplace_lib m rs⟩⟩
  obtain ⟨out, ho, _, _, p1⟩ := Run_lib_printed t _ h
  refine ⟨out, ho, ?_⟩
  have hm : Lib.matchesOld rB.Old.Path rB.Old.Version
      (⟨⟨rA.Old.Path, rA.Old.Version⟩, rA.New, ⟨⟨rA.Old.Path, rA.Old.Version⟩, rA.New⟩⟩ :
        Replace V) = true := by
    simp [Lib.matchesOld, hk]
  have hall : replaceAll [] ((loaded [.ok A, .ok B]).flatMap (fun f => f.Replace))
      = [⟨⟨rA.Old.Path, rA.Old.Version⟩, rB.New, ⟨⟨rB.Old.Path, rB.Old.Version⟩, rB.New⟩⟩] := by
    have e : (loaded [.ok A, .ok B]).flatMap (fun f => f.Replace) = [rA, rB] := by
      simp [loaded, hA, hB]
    rw [e]
    simp [replaceAll, Lib.addReplace, Lib.updateFirst, hm]
  rw [p1, hall]
  rfl

/-- C7, amended: when `Run` succeeds on a list of inputs and on a permutation of it,
the two printed manifests have the same requirements and the same exclusions,
entry by entry in the same order; they have the same replacements as well when no
two replacements of the inputs have the same old path. -/
theorem Run_order_independent (t : MergeTask)
    (inputs₁ inputs₂ : List (Except (Error V) (File V))) (hperm : inputs₁.Perm inputs₂)
    (h1 : (Run libModfile t inputs₁).ret = .nil)
    (h2 : (Run libModfile t inputs₂).ret = .nil) :
    ∃ out₁ out₂, (Run libModfile t inputs₁).stdout = [out₁] ∧
      (Run libModfile t inputs₂).stdout = [out₂] ∧
      out₁.Require = out₂.Require ∧ out₁.Exclude = out₂.Exclude ∧
      ((((loaded inputs₁).flatMap (fun f => f.Replace)).map (fun r => r.Old.Path)).Nodup →
        out₁.Replace = out₂.Replace) := by
  obtain ⟨out₁, ho1, r1, e1, p1⟩ := Run_lib_printed t _ h1
  obtain ⟨out₂, ho2, r2, e2, p2⟩ := Run_lib_printed t _ h2
  have hl := loaded_perm hperm
  refine ⟨out₁, out₂, ho1, ho2, ?_, ?_, ?_⟩
  · rw [r1, r2]
    exact insertionSort_eq_of_perm (List.Perm.flatMap_right _ hl)
  · rw [e1, e2]
    refine insertionSort_eq_of_perm ?_
    rw [List.perm_ext_iff_of_nodup (nodup_excludeAll _ _ List.nodup_nil)
      (nodup_excludeAll _ _ List.nodup_nil)]
    intro x
    rw [mem_excludeAll, mem_excludeAll]
    exact or_congr Iff.rfl (List.Perm.flatMap_right _ hl).mem_iff
  · intro hd
    have hp := List.Perm.flatMap_right (fun f : File V => f.Replace) hl
    have hd2 := ((hp.map (fun r => r.Old.Path)).nodup_iff).1 hd
    rw [p1, p2, replaceAll_of_distinct _ _ (by simpa using hd),
      replaceAll_of_distinct _ _ (by simpa using hd2)]
    exact insertionSort_eq_of_perm ((hp.map asRead).append_left [])

end Finalize

/-- C1, as stated: `exampleA` requires `example.com/x` at 1 only, `exampleB` at 2
only, the run returns nil in both orders, and the printed manifest holds both
requirements for `example.com/x`, not the one at 2 alone. -/
theorem Run_requirement_not_collapsed :
    (∀ r ∈ exampleA.Require, r.Mod.Path = "example.com/x" → r.Mod.Version = 1) ∧
    (∀ r ∈ exampleB.Require, r.Mod.Path = "example.com/x" → r.Mod.Version = 2) ∧
    (Run (libModfile : Modfile Nat) ⟨"", ""⟩ [.ok exampleA, .ok exampleB]).ret = .nil ∧
    (Run (libModfile : Modfile Nat) ⟨"", ""⟩ [.ok exampleA, .ok exampleB]).stdout.map
        (fun out => out.Require.filter (fun r => decide (r.Mod.Path = "example.com/x")))
      = [[⟨⟨"example.com/x", 1⟩, false⟩, ⟨⟨"example.com/x", 2⟩, false⟩]] ∧
    (Run (libModfile : Modfile Nat) ⟨"", ""⟩ [.ok exampleB, .ok exampleA]).ret = .nil ∧
    (Run (libModfile : Modfile Nat) ⟨"", ""⟩ [.ok exampleB, .ok exampleA]).stdout.map
        (fun out => out.Require.filter (fun r => decide (r.Mod.Path = "example.com/x")))
      = [[⟨⟨"example.com/x", 1⟩, false⟩, ⟨⟨"example.com/x", 2⟩, false⟩]] := by
  decide

/-- C1, amended, at `exampleA` and `exampleB`. -/
theorem Run_requirements_kept_witness :
    (Run (libModfile : Modfile Nat) ⟨"", ""⟩ [.ok exampleB, .ok exampleA]).ret = .nil ∧
    ∃ out₁ out₂, (Run (libModfile : Modfile Nat) ⟨"", ""⟩ [.ok exampleA, .ok exampleB]).stdout
        = [out₁] ∧
      (Run (libModfile : Modfile Nat) ⟨"", ""⟩ [.ok exampleB, .ok exampleA]).stdout = [out₂] ∧
      out₁.Require = out₂.Require ∧
      (⟨⟨"example.com/x", 1⟩, false⟩ : Require Nat) ∈ out₁.Require ∧
      (⟨⟨"example.com/x", 2⟩, false⟩ : Require Nat) ∈ out₁.Require ∧
      (out₁.Require.filter (fun r => decide (r.Mod.Path = "example.com/x"))).length
        = (exampleA.Require.filter (fun r => decide (r.Mod.Path = "example.com/x"))).length
          + (exampleB.Require.filter (fun r => decide (r.Mod.Path = "example.com/x"))).length ∧
      out₁.Require.filter (fun r => decide (r.Mod.Path = "example.com/x"))
        ≠ [⟨⟨"example.com/x", 2⟩, false⟩] :=
  Run_requirements_kept ⟨"", ""⟩ exampleA exampleB "example.com/x" 1 2 (by decide)
    (by decide) (by decide) (by decide) (by decide) (by decide)

/-- C2, as stated: two manifests that exclude the same (path, version), and one
manifest that excludes it twice, are merged without an error into a manifest with
one exclusion entry. -/
theorem Run_duplicate_exclude_merges :
    Run (libModfile : Modfile Nat) ⟨"", ""⟩ [.ok exampleExclude, .ok exampleExclude2]
      = ⟨[⟨none, some ⟨"1.20"⟩, [], [⟨⟨"example.com/m", 1⟩⟩], [], []⟩], .nil⟩ ∧
    Run (libModfile : Modfile Nat) ⟨"", ""⟩ [.ok exampleExcludeTwice]
      = ⟨[⟨none, some ⟨"1.21"⟩, [], [⟨⟨"example.com/m", 1⟩⟩], [], []⟩], .nil⟩ := by
  decide

/-- C2, amended, at `exampleExclude` and `exampleExclude2`. -/
theorem Run_duplicate_exclude_once_witness :
    (∃ out, (Run (libModfile : Modfile Nat) ⟨"", ""⟩
        [.ok exampleExclude, .ok exampleExclude2]).stdout = [out] ∧
      out.Exclude.count ⟨⟨"example.com/m", 1⟩⟩ = 1) ∧
    ∀ (m : File Nat) (xs : List (Exclude Nat)), ∃ m1, copyExclude libModfile m xs = .ok m1 :=
  Run_duplicate_exclude_once ⟨"", ""⟩ [.ok exampleExclude, .ok exampleExclude2]
    "example.com/m" 1 (by decide) (by decide)

/-- C3, as stated: two manifests that replace the same source by different
destinations, and two that hold the same replacement, are merged without an error
into a manifest with one replacement, that of the manifest processed last. -/
theorem Run_duplicate_replace_overwrites :
    (Run (libModfile : Modfile Nat) ⟨"", ""⟩ [.ok exampleReplace1, .ok exampleReplace2]).ret
      = .nil ∧
    (Run (libModfile : Modfile Nat) ⟨"", ""⟩ [.ok exampleReplace1, .ok exampleReplace2]).stdout.map
        (fun out => out.Replace.map (fun r => r.Syntax))
      = [[⟨⟨"example.com/m", none⟩, ⟨"example.com/n", some 2⟩⟩]] ∧
    (Run (libModfile : Modfile Nat) ⟨"", ""⟩ [.ok exampleReplace1, .ok exampleReplace1b]).ret
      = .nil ∧
    (Run (libModfile : Modfile Nat) ⟨"", ""⟩ [.ok exampleReplace1, .ok exampleReplace1b]).stdout.map
        (fun out => out.Replace.map (fun r => r.Syntax))
      = [[⟨⟨"example.com/m", none⟩, ⟨"example.com/n", some 1⟩⟩]] := by
  decide

/-- C3, amended, at `exampleReplace1` and `exampleReplace2`. -/
theorem Run_replace_last_wins_witness :
    (∃ out, (Run (libModfile : Modfile Nat) ⟨"", ""⟩
        [.ok exampleReplace1, .ok exampleReplace2]).stdout = [out] ∧
      out.Replace.map (fun r => r.Syntax)
        = [⟨⟨"example.com/m", none⟩, ⟨"example.com/n", some 2⟩⟩]) ∧
    ∀ (m : File Nat) (rs : List (Replace Nat)), ∃ m1, copyReplace libModfile m rs = .ok m1 :=
  Run_replace_last_wins ⟨"", ""⟩ exampleReplace1 exampleReplace2
    (Replace.parsed ⟨"example.com/m", none⟩ ⟨"example.com/n", some 1⟩)
    (Replace.parsed ⟨"example.com/m", none⟩ ⟨"example.com/n", some 2⟩) rfl rfl rfl (by decide)

/-- C7, as stated: `Run` succeeds on `exampleA`, `exampleB` in both orders, and
prints two replacements in one order and one in the other. -/
theorem Run_replace_order_dependent :
    (Run (libModfile : Modfile Nat) ⟨"", ""⟩ [.ok exampleA, .ok exampleB]).ret = .nil ∧
    (Run (libModfile : Modfile Nat) ⟨"", ""⟩ [.ok exampleB, .ok exampleA]).ret = .nil ∧
    (Run (libModfile : Modfile Nat) ⟨"", ""⟩ [.ok exampleA, .ok exampleB]).stdout.map
        (fun out => out.Replace.map (fun r => r.Syntax))
      = [[⟨⟨"example.com/r", none⟩, ⟨"example.com/s", some 1⟩⟩,
          ⟨⟨"example.com/r", some 1⟩, ⟨"example.com/s", some 1⟩⟩]] ∧
    (Run (libModfile : Modfile Nat) ⟨"", ""⟩ [.ok exampleB, .ok exampleA]).stdout.map
        (fun out => out.Replace.map (fun r => r.Syntax))
      = [[⟨⟨"example.com/r", none⟩, ⟨"example.com/s", some 1⟩⟩]] := by
  decide

/-- C7, amended, at `exampleA` and `exampleC`, which replace different paths, in the
two orders. -/
theorem Run_order_independent_witness :
    ∃ out₁ out₂,
      (Run (libModfile : Modfile Nat) ⟨"", ""⟩ [.ok exampleA, .ok exampleC]).stdout = [out₁] ∧
      (Run (libModfile : Modfile Nat) ⟨"", ""⟩ [.ok exampleC, .ok exampleA]).stdout = [out₂] ∧
      out₁.Require = out₂.Require ∧ out₁.Exclude = out₂.Exclude ∧
      out₁.Replace = out₂.Replace := by
  obtain ⟨o1, o2, a, b, c, d, e⟩ :=
    Run_order_independent ⟨"", ""⟩ [.ok exampleA, .ok exampleC] [.ok exampleC, .ok exampleA]
      (List.Perm.swap _ _ _) (by decide) (by decide)
  exact ⟨o1, o2, a, b, c, d, e (by decide)⟩

end MergeGoMods
